import Mathlib

/-!
Verification development for the client-side query/cache/navigation layer of a
character-catalog browsing client.  The definitions below are a shallow
embedding of the TypeScript source: `src/pages/ListView.tsx` (debounced search
controller and query cache), `src/pages/GalleryView.tsx` (gallery filter
engine), and `src/pages/DetailView.tsx` (neighbor navigation model).
Machine numbers are modelled as `Nat`/`Int`; JavaScript `Map` objects are
modelled as insertion-ordered association lists; asynchronous effects are
modelled as explicit events over an explicit state, each returning the next
state together with a log of the outside-visible operations it performed
(cache reads, cache writes, fetch starts).
-/

/-- Raw API record shape (fields of `MarvelCharacter` consumed by the core):
an item of a resource list, exposing a `name`. -/
structure ResourceItem where
  name : String
deriving DecidableEq, Repr

/-- Resource-list group of a raw record: an `available` count plus items. -/
structure ResourceList where
  available : Nat
  items : List ResourceItem
deriving DecidableEq, Repr

/-- Thumbnail image reference: a path and a file extension. -/
structure MarvelImage where
  path : String
  extension : String
deriving DecidableEq, Repr

/-- Raw character record as consumed from the remote catalog client. -/
structure MarvelCharacter where
  id : Nat
  name : String
  description : String
  thumbnail : Option MarvelImage
  comics : ResourceList
  series : ResourceList
  stories : ResourceList
  events : ResourceList
deriving DecidableEq, Repr

/-- The four sort options of the list view (`SortKey` in ListView.tsx). -/
inductive SortKey where
  | nameAsc
  | nameDesc
  | comicsDesc
  | comicsAsc
deriving DecidableEq, Repr

/-- Derived summary displayed in the search result list
(`CharacterSummary` in ListView.tsx). -/
structure CharacterSummary where
  id : Nat
  name : String
  codename : String
  thumbnailUrl : String
  comics : Nat
  events : Nat
deriving DecidableEq, Repr

/-- Fallback poster URL (`DEFAULT_POSTER`). -/
def DEFAULT_POSTER : String :=
  "https://i.annihil.us/u/prod/marvel/i/mg/b/40/image_not_available/portrait_uncanny.jpg"

/-- Debounce delay constant (`API_DEBOUNCE_MS = 300`). -/
def API_DEBOUNCE_MS : Nat := 300

/-- Display limit constant (`DISPLAY_LIMIT = 10`). -/
def DISPLAY_LIMIT : Nat := 10

/-- Embedding of JavaScript `String.prototype.trim`: drop whitespace from both
ends of the character sequence. -/
def jsTrim (s : String) : String :=
  ⟨((s.data.dropWhile Char.isWhitespace).reverse.dropWhile Char.isWhitespace).reverse⟩

/-- Embedding of JavaScript `String.prototype.toLowerCase`: lower-case every
character. -/
def jsToLower (s : String) : String :=
  ⟨s.data.map Char.toLower⟩

/-- Lexicographic three-way comparison of character sequences by code point:
negative, zero or positive in the manner of a JavaScript comparator. -/
def lexCompareChars : List Char → List Char → Int
  | [], [] => 0
  | [], _ :: _ => -1
  | _ :: _, [] => 1
  | a :: as, b :: bs =>
      if a.toNat < b.toNat then -1
      else if b.toNat < a.toNat then 1
      else lexCompareChars as bs

/-- Embedding of JavaScript `String.prototype.localeCompare` used by the name
comparators: negative when the first string orders first, positive when it
orders last, zero on equal strings. -/
def localeCompare (a b : String) : Int :=
  lexCompareChars a.data b.data

/-- Embedding of `String.prototype.includes` for a fixed pattern: splitting on
the pattern yields more than one piece exactly when the pattern occurs. -/
def stringIncludes (s pat : String) : Bool :=
  (s.splitOn pat).length > 1

/-- Embedding of `ensureHttps` (ListView.tsx / GalleryView.tsx /
DetailView.tsx): JavaScript `replace` with a string pattern replaces only the
first occurrence, which under the `startsWith` guard is the leading scheme. -/
def ensureHttps (url : String) : String :=
  if url.startsWith "http://" then "https://" ++ url.drop 7 else url

/-- Embedding of `buildThumbnailUrl` (ListView.tsx): fall back to the default
poster when the thumbnail is null, has an empty (falsy) path, or is the
placeholder image. -/
def buildThumbnailUrl (thumbnail : Option MarvelImage) : String :=
  match thumbnail with
  | none => DEFAULT_POSTER
  | some img =>
      if img.path = "" || stringIncludes img.path "image_not_available" then DEFAULT_POSTER
      else ensureHttps img.path ++ "/portrait_uncanny." ++ img.extension

/-- Embedding of `summarizeCharacter` (ListView.tsx). -/
def summarizeCharacter (c : MarvelCharacter) : CharacterSummary :=
  { id := c.id
    name := c.name
    codename := ((c.series.items.head?).map ResourceItem.name).getD "Classified Asset"
    thumbnailUrl := buildThumbnailUrl c.thumbnail
    comics := c.comics.available
    events := c.events.available }

/-- The client-side comparator attached to each sort option
(`sortOptions[_].clientSort` in ListView.tsx). -/
def clientSort : SortKey → CharacterSummary → CharacterSummary → Int
  | SortKey.nameAsc, a, b => localeCompare a.name b.name
  | SortKey.nameDesc, a, b => localeCompare b.name a.name
  | SortKey.comicsDesc, a, b => (b.comics : Int) - (a.comics : Int)
  | SortKey.comicsAsc, a, b => (a.comics : Int) - (b.comics : Int)

/-- Insert an element into a list, placing it before the first element it
compares strictly below; used to model the stable comparator sort. -/
def sortInsert (c : α → α → Int) (x : α) : List α → List α
  | [] => [x]
  | y :: ys => if c x y < 0 then x :: y :: ys else y :: sortInsert c x ys

/-- Embedding of JavaScript `Array.prototype.sort(comparator)` (stable per the
ECMAScript specification): elements are taken left to right, each inserted
after all already-placed elements it does not compare strictly below. -/
def stableSort (c : α → α → Int) (l : List α) : List α :=
  l.foldl (fun acc x => sortInsert c x acc) []

theorem sortInsert_perm (c : α → α → Int) (x : α) (l : List α) :
    List.Perm (sortInsert c x l) (x :: l) := by
  induction l with
  | nil => exact List.Perm.refl _
  | cons y ys ih =>
      unfold sortInsert
      split
      · exact List.Perm.refl _
      · exact (List.Perm.cons y ih).trans (List.Perm.swap x y ys)

theorem stableSort_foldl_perm (c : α → α → Int) (l acc : List α) :
    List.Perm (l.foldl (fun a x => sortInsert c x a) acc) (acc ++ l) := by
  induction l generalizing acc with
  | nil => simp
  | cons x xs ih =>
      have h1 : List.Perm (sortInsert c x acc ++ xs) ((x :: acc) ++ xs) :=
        (sortInsert_perm c x acc).append_right xs
      have h2 := ih (sortInsert c x acc)
      have h3 : List.Perm ((x :: acc) ++ xs) (acc ++ x :: xs) :=
        List.perm_middle.symm
      exact (h2.trans h1).trans h3

theorem stableSort_perm (c : α → α → Int) (l : List α) :
    List.Perm (stableSort c l) l := by
  simpa using stableSort_foldl_perm c l []

theorem sortInsert_pairwise (c : α → α → Int)
    (htot : ∀ a b, ¬ c a b < 0 → c b a ≤ 0)
    (htrans : ∀ a b d, c a b ≤ 0 → c b d ≤ 0 → c a d ≤ 0)
    (x : α) (l : List α) (hl : l.Pairwise (fun a b => c a b ≤ 0)) :
    (sortInsert c x l).Pairwise (fun a b => c a b ≤ 0) := by
  induction l with
  | nil => simp [sortInsert]
  | cons y ys ih =>
      rcases List.pairwise_cons.mp hl with ⟨hy, hys⟩
      unfold sortInsert
      split
      · rename_i hxy
        refine List.pairwise_cons.mpr ⟨?_, hl⟩
        intro z hz
        rcases List.mem_cons.mp hz with hz | hz
        · rw [hz]; exact le_of_lt hxy
        · exact htrans x y z (le_of_lt hxy) (hy z hz)
      · rename_i hxy
        refine List.pairwise_cons.mpr ⟨?_, ih hys⟩
        intro z hz
        have hz2 : z ∈ x :: ys := (sortInsert_perm c x ys).mem_iff.mp hz
        rcases List.mem_cons.mp hz2 with hz3 | hz3
        · rw [hz3]; exact htot x y hxy
        · exact hy z hz3

theorem stableSort_pairwise (c : α → α → Int)
    (htot : ∀ a b, ¬ c a b < 0 → c b a ≤ 0)
    (htrans : ∀ a b d, c a b ≤ 0 → c b d ≤ 0 → c a d ≤ 0)
    (l : List α) : (stableSort c l).Pairwise (fun a b => c a b ≤ 0) := by
  have haux : ∀ (l acc : List α), acc.Pairwise (fun a b => c a b ≤ 0) →
      (l.foldl (fun a x => sortInsert c x a) acc).Pairwise (fun a b => c a b ≤ 0) := by
    intro l
    induction l with
    | nil => intro acc hacc; simpa using hacc
    | cons x xs ih =>
        intro acc hacc
        exact ih _ (sortInsert_pairwise c htot htrans x acc hacc)
  simpa [stableSort] using haux l [] List.Pairwise.nil

theorem sortInsert_map (c : β → β → Int) (f : α → β) (x : α) (l : List α) :
    sortInsert c (f x) (l.map f) = (sortInsert (fun a b => c (f a) (f b)) x l).map f := by
  induction l with
  | nil => rfl
  | cons y ys ih =>
      unfold sortInsert
      by_cases h : c (f x) (f y) < 0
      · simp [h]
      · simp [h, ih]

theorem stableSort_map (c : β → β → Int) (f : α → β) (l : List α) :
    stableSort c (l.map f) = (stableSort (fun a b => c (f a) (f b)) l).map f := by
  have haux : ∀ (l acc : List α),
      (l.map f).foldl (fun a x => sortInsert c x a) (acc.map f)
        = ((l.foldl (fun a x => sortInsert (fun a b => c (f a) (f b)) x a) acc).map f) := by
    intro l
    induction l with
    | nil => intro acc; rfl
    | cons x xs ih =>
        intro acc
        have h1 := sortInsert_map c f x acc
        simp only [List.map_cons, List.foldl_cons, h1]
        exact ih _
  simpa [stableSort] using haux l []

theorem lexCompareChars_antisym (a b : List Char) :
    lexCompareChars b a = -lexCompareChars a b := by
  induction a generalizing b with
  | nil => cases b <;> simp [lexCompareChars]
  | cons x xs ih =>
      cases b with
      | nil => simp [lexCompareChars]
      | cons y ys =>
          unfold lexCompareChars
          rcases Nat.lt_trichotomy x.toNat y.toNat with h | h | h
          · have h2 : ¬ y.toNat < x.toNat := by omega
            simp [h, h2]
          · have h1 : ¬ x.toNat < y.toNat := by omega
            have h2 : ¬ y.toNat < x.toNat := by omega
            simp [h1, h2]
            exact ih ys
          · have h1 : ¬ x.toNat < y.toNat := by omega
            simp [h, h1]

theorem lexCompareChars_trans (a b d : List Char)
    (hab : lexCompareChars a b ≤ 0) (hbd : lexCompareChars b d ≤ 0) :
    lexCompareChars a d ≤ 0 := by
  induction a generalizing b d with
  | nil => cases d <;> simp [lexCompareChars]
  | cons x xs ih =>
      cases b with
      | nil => simp [lexCompareChars] at hab
      | cons y ys =>
          cases d with
          | nil => simp [lexCompareChars] at hbd
          | cons z zs =>
              unfold lexCompareChars at hab hbd ⊢
              rcases Nat.lt_trichotomy x.toNat y.toNat with hxy | hxy | hxy
              · rcases Nat.lt_trichotomy y.toNat z.toNat with hyz | hyz | hyz
                · simp [show x.toNat < z.toNat by omega]
                · simp [show x.toNat < z.toNat by omega]
                · simp [show ¬ y.toNat < z.toNat by omega, hyz] at hbd
              · rcases Nat.lt_trichotomy y.toNat z.toNat with hyz | hyz | hyz
                · simp [show x.toNat < z.toNat by omega]
                · have h1 : ¬ x.toNat < y.toNat := by omega
                  have h2 : ¬ y.toNat < x.toNat := by omega
                  have h3 : ¬ y.toNat < z.toNat := by omega
                  have h4 : ¬ z.toNat < y.toNat := by omega
                  have h5 : ¬ x.toNat < z.toNat := by omega
                  have h6 : ¬ z.toNat < x.toNat := by omega
                  simp [h1, h2] at hab
                  simp [h3, h4] at hbd
                  simp [h5, h6]
                  exact ih ys zs hab hbd
                · simp [show ¬ y.toNat < z.toNat by omega, hyz] at hbd
              · simp [show ¬ x.toNat < y.toNat by omega, hxy] at hab

theorem localeCompare_tot (a b : String) (h : ¬ localeCompare a b < 0) :
    localeCompare b a ≤ 0 := by
  unfold localeCompare at h ⊢
  rw [lexCompareChars_antisym]
  omega

theorem localeCompare_trans (a b d : String)
    (hab : localeCompare a b ≤ 0) (hbd : localeCompare b d ≤ 0) :
    localeCompare a d ≤ 0 :=
  lexCompareChars_trans a.data b.data d.data hab hbd

/-- Observable operations performed by the search controller against its
collaborators: a query-cache read, a query-cache write, and the start of a
remote catalog fetch (`getCharacters` with a limit and a name-start string). -/
inductive SearchOp where
  | cacheLookup (key : String)
  | cacheWrite (key : String)
  | fetchStart (nameStartsWith : String) (limit : Nat)
deriving DecidableEq, Repr

/-- Query cache read (`cacheRef.current.get`): first matching key of the
insertion-ordered association list. -/
def lookupCache : List (String × List CharacterSummary) → String → Option (List CharacterSummary)
  | [], _ => none
  | (k', v) :: rest, k => if k' = k then some v else lookupCache rest k

/-- Query cache write (`cacheRef.current.set`): JavaScript `Map.set` updates an
existing key in place and appends a missing key at the end. -/
def cacheSet : List (String × List CharacterSummary) → String → List CharacterSummary →
    List (String × List CharacterSummary)
  | [], k, v => [(k, v)]
  | (k', v') :: rest, k, v =>
      if k' = k then (k, v) :: rest else (k', v') :: cacheSet rest k v

/-- Pending debounce timer recorded by `window.setTimeout` in the search
effect: the generation whose closure it captured, the captured trimmed query,
the captured active sort, and the delay in milliseconds. -/
structure PendingTimer where
  generation : Nat
  trimmed : String
  sortKey : SortKey
  delayMs : Nat
deriving DecidableEq, Repr

/-- State of the debounced search controller (`ListView` component state plus
the `cacheRef` map and the effect bookkeeping): displayed summaries, loading
flag, error message, query cache, the generation counter standing for the
per-effect `cancelled` closure flag (a generation older than the current one
is cancelled), and the pending debounce timer, if any. -/
structure SearchState where
  characters : List CharacterSummary
  loading : Bool
  error : Option String
  cache : List (String × List CharacterSummary)
  generation : Nat
  pendingTimer : Option PendingTimer
deriving DecidableEq, Repr

/-- Initial state of the search controller on mount. -/
def initialSearchState : SearchState :=
  { characters := []
    loading := false
    error := none
    cache := []
    generation := 0
    pendingTimer := none }

/-- Error message set by the search fetch failure path. -/
def fetchErrorMessage : String := "Could not load characters right now. Please try again."

/-- One synchronous run of the `ListView` search effect, triggered by a change
of the query text or of the active sort option.  It first performs the cleanup
of the previous run (set the previous closure's `cancelled` flag, modelled by
bumping the generation, and `clearTimeout` the pending timer), then executes
the effect body: an empty trimmed query resets the view; otherwise the cache is
read for the normalized key, a hit renders the re-sorted truncated cached batch
immediately, and a miss sets the loading flag and arms the debounce timer. -/
def effectRun (s : SearchState) (query : String) (srt : SortKey) :
    SearchState × List SearchOp :=
  let g := s.generation + 1
  let base := { s with generation := g, pendingTimer := none }
  let trimmed := jsTrim query
  if trimmed = "" then
    ({ base with characters := [], error := none, loading := false }, [])
  else
    let normalized := jsToLower trimmed
    match lookupCache base.cache normalized with
    | some cached =>
        ({ base with
            characters := (stableSort (clientSort srt) cached).take DISPLAY_LIMIT
            error := none
            loading := false },
          [SearchOp.cacheLookup normalized])
    | none =>
        ({ base with
            loading := true
            error := none
            pendingTimer := some ⟨g, trimmed, srt, API_DEBOUNCE_MS⟩ },
          [SearchOp.cacheLookup normalized])

/-- Expiry of the pending debounce timer: the `setTimeout` callback starts the
remote fetch (`getCharacters` with `limit = DISPLAY_LIMIT` and
`nameStartsWith = trimmed`).  A cleared timer never fires, so there is no
state transition when no timer is pending. -/
def timerFire (s : SearchState) : SearchState × List SearchOp :=
  match s.pendingTimer with
  | some t => ({ s with pendingTimer := none }, [SearchOp.fetchStart t.trimmed DISPLAY_LIMIT])
  | none => (s, [])

/-- Outcome of a remote catalog fetch: a result page or a transient failure. -/
inductive FetchResult where
  | ok (results : List MarvelCharacter)
  | err
deriving DecidableEq, Repr

/-- Resolution of the asynchronous fetch issued by the timer callback of
generation `g` with captured trimmed query `trimmed` and captured sort `srt`.
The closure first consults its `cancelled` flag (stale generation): a cancelled
resolution performs no state update and no cache write.  A current successful
resolution writes the unsorted mapped results to the cache under the
normalized key and displays the sorted, truncated batch; a current failed
resolution sets the error message and clears the displayed results; both clear
the loading flag. -/
def resolveFetch (s : SearchState) (g : Nat) (trimmed : String) (srt : SortKey)
    (r : FetchResult) : SearchState × List SearchOp :=
  if g = s.generation then
    match r with
    | FetchResult.ok results =>
        let normalized := jsToLower trimmed
        let mapped := results.map summarizeCharacter
        ({ s with
            cache := cacheSet s.cache normalized mapped
            characters := (stableSort (clientSort srt) mapped).take DISPLAY_LIMIT
            loading := false },
          [SearchOp.cacheWrite normalized])
    | FetchResult.err =>
        ({ s with error := some fetchErrorMessage, characters := [], loading := false }, [])
  else (s, [])

theorem lookupCache_cacheSet_self (c : List (String × List CharacterSummary))
    (k : String) (v : List CharacterSummary) :
    lookupCache (cacheSet c k v) k = some v := by
  induction c with
  | nil => simp [cacheSet, lookupCache]
  | cons kv rest ih =>
      obtain ⟨k', v'⟩ := kv
      unfold cacheSet
      by_cases h : k' = k
      · simp [h, lookupCache]
      · simp [h, lookupCache, ih]

theorem effectRun_generation (s : SearchState) (q : String) (srt : SortKey) :
    (effectRun s q srt).1.generation = s.generation + 1 := by
  unfold effectRun
  by_cases h : jsTrim q = ""
  · simp [h]
  · simp only [h, if_false]
    cases hc : lookupCache s.cache (jsToLower (jsTrim q)) <;> simp [hc]

theorem timerFire_generation (s : SearchState) :
    (timerFire s).1.generation = s.generation := by
  unfold timerFire
  cases s.pendingTimer <;> simp

theorem resolveFetch_generation (s : SearchState) (g : Nat) (trimmed : String)
    (srt : SortKey) (r : FetchResult) :
    (resolveFetch s g trimmed srt r).1.generation = s.generation := by
  unfold resolveFetch
  by_cases h : g = s.generation
  · cases r <;> simp [h]
  · simp [h]

theorem resolveFetch_stale (s : SearchState) (g : Nat) (trimmed : String)
    (srt : SortKey) (r : FetchResult) (h : g ≠ s.generation) :
    resolveFetch s g trimmed srt r = (s, []) := by
  unfold resolveFetch
  simp [h]

theorem effectRun_pendingTimer_generation (s : SearchState) (q : String) (srt : SortKey)
    (t : PendingTimer) (h : (effectRun s q srt).1.pendingTimer = some t) :
    t.generation = s.generation + 1 := by
  unfold effectRun at h
  by_cases hq : jsTrim q = ""
  · simp [hq] at h
  · simp only [hq, if_false] at h
    cases hc : lookupCache s.cache (jsToLower (jsTrim q)) with
    | some cached => rw [hc] at h; simp at h
    | none =>
        rw [hc] at h
        simp at h
        rw [← h]

theorem effectRun_pendingTimer_shape (s : SearchState) (q : String) (srt : SortKey) :
    (effectRun s q srt).1.pendingTimer = none ∨
    (effectRun s q srt).1.pendingTimer
      = some ⟨(effectRun s q srt).1.generation, jsTrim q, srt, API_DEBOUNCE_MS⟩ := by
  unfold effectRun
  by_cases hq : jsTrim q = ""
  · left; simp [hq]
  · simp only [hq, if_false]
    cases hc : lookupCache s.cache (jsToLower (jsTrim q)) with
    | some cached => left; simp
    | none => right; simp

/-- C1: for consecutive searches Q1 then Q2, where Q2's keystroke arrives
before Q1's debounce timer fires or before Q1's fetch resolves, the resolution
of Q1's cycle performs no observable state update: any timer still pending
after Q2's keystroke belongs to Q2's generation, Q1's fetch resolution is a
complete no-op (no state change, no cache write, no operation), and in either
resolution order the final state is exactly the state produced by Q2's cycle
alone. -/
theorem search_cancellation_stale_noop
    (s s1 s2 s3 : SearchState) (q1 q2 : String) (srt1 srt2 : SortKey)
    (t1 t2 : String) (k1 k2 : SortKey) (r1 r2 : FetchResult)
    (hs1 : s1 = (effectRun s q1 srt1).1)
    (hs2 : s2 = (effectRun s1 q2 srt2).1)
    (hs3 : s3 = (timerFire s2).1) :
    (s2.pendingTimer = none ∨
      s2.pendingTimer = some ⟨s2.generation, jsTrim q2, srt2, API_DEBOUNCE_MS⟩) ∧
    resolveFetch s3 s1.generation t1 k1 r1 = (s3, []) ∧
    (resolveFetch (resolveFetch s3 s2.generation t2 k2 r2).1 s1.generation t1 k1 r1).1
      = (resolveFetch s3 s2.generation t2 k2 r2).1 ∧
    (resolveFetch (resolveFetch s3 s1.generation t1 k1 r1).1 s2.generation t2 k2 r2).1
      = (resolveFetch s3 s2.generation t2 k2 r2).1 := by
  have hg1 : s1.generation = s.generation + 1 := by rw [hs1]; exact effectRun_generation s q1 srt1
  have hg2 : s2.generation = s.generation + 2 := by
    rw [hs2, effectRun_generation, hg1]
  have hg3 : s3.generation = s2.generation := by rw [hs3]; exact timerFire_generation s2
  have hne : s1.generation ≠ s3.generation := by omega
  have hstale1 : resolveFetch s3 s1.generation t1 k1 r1 = (s3, []) :=
    resolveFetch_stale s3 s1.generation t1 k1 r1 hne
  refine ⟨?_, hstale1, ?_, ?_⟩
  · rw [hs2]
    exact effectRun_pendingTimer_shape s1 q2 srt2
  · have hgpres : (resolveFetch s3 s2.generation t2 k2 r2).1.generation = s3.generation :=
      resolveFetch_generation s3 s2.generation t2 k2 r2
    have hne2 : s1.generation ≠ (resolveFetch s3 s2.generation t2 k2 r2).1.generation := by
      rw [hgpres]; exact hne
    rw [resolveFetch_stale _ _ _ _ _ hne2]
  · rw [hstale1]

/-- Sample summary used as concrete cached data in witnesses. -/
def sampleSummary : CharacterSummary :=
  { id := 1, name := "Ant-Man", codename := "Avengers", thumbnailUrl := "u"
    comics := 30, events := 2 }

/-- Second sample summary with a later name and more comics. -/
def sampleSummary2 : CharacterSummary :=
  { id := 2, name := "Beast", codename := "X-Men", thumbnailUrl := "v"
    comics := 70, events := 5 }

/-- Sample raw character (no thumbnail) used as a concrete fetch result. -/
def sampleMarvel : MarvelCharacter :=
  { id := 7, name := "Ant-Man", description := "", thumbnail := none
    comics := ⟨30, []⟩, series := ⟨1, [⟨"Avengers"⟩]⟩, stories := ⟨0, []⟩
    events := ⟨2, []⟩ }

/-- Search state sitting in Ready for the normalized key "ant": the cache
holds the unsorted batch and the displayed characters are the sorted,
truncated batch. -/
def readySearchState : SearchState :=
  { characters := (stableSort (clientSort SortKey.nameAsc) [sampleSummary2, sampleSummary]).take DISPLAY_LIMIT
    loading := false
    error := none
    cache := [("ant", [sampleSummary2, sampleSummary])]
    generation := 3
    pendingTimer := none }

/-- Witness for C1 at concrete inputs: typing "ant" then "bee" from the
initial state and then resolving the stale "ant" fetch with a failure changes
nothing and performs no operation. -/
theorem search_cancellation_stale_noop_witness :
    resolveFetch
        (timerFire (effectRun (effectRun initialSearchState "ant" SortKey.nameAsc).1 "bee" SortKey.nameAsc).1).1
        (effectRun initialSearchState "ant" SortKey.nameAsc).1.generation
        "ant" SortKey.nameAsc FetchResult.err
      = ((timerFire (effectRun (effectRun initialSearchState "ant" SortKey.nameAsc).1 "bee" SortKey.nameAsc).1).1,
          []) :=
  (search_cancellation_stale_noop initialSearchState
      (effectRun initialSearchState "ant" SortKey.nameAsc).1
      (effectRun (effectRun initialSearchState "ant" SortKey.nameAsc).1 "bee" SortKey.nameAsc).1
      (timerFire (effectRun (effectRun initialSearchState "ant" SortKey.nameAsc).1 "bee" SortKey.nameAsc).1).1
      "ant" "bee" SortKey.nameAsc SortKey.nameAsc
      "ant" "bee" SortKey.nameAsc SortKey.nameAsc
      FetchResult.err (FetchResult.ok [sampleMarvel])
      rfl rfl rfl).2.1

/-- Counterexample to C6 as stated: from a state whose cache already holds the
normalized key "ant", the keystroke event itself consults the cache and
transitions directly to Ready, with no debounce timer ever pending; so the
cache is not consulted "only upon expiry of the 300 ms delay", and on a hit
the Ready transition occurs before (indeed without) any delay expiry. -/
theorem cache_checked_at_keystroke_cex :
    SearchOp.cacheLookup "ant" ∈ (effectRun readySearchState "ant" SortKey.nameAsc).2 ∧
    (effectRun readySearchState "ant" SortKey.nameAsc).1.pendingTimer = none ∧
    (effectRun readySearchState "ant" SortKey.nameAsc).1.loading = false ∧
    (effectRun readySearchState "ant" SortKey.nameAsc).1.characters
      = [sampleSummary, sampleSummary2] := by
  decide

/-- C6 (amended): the controller consults the Query Cache for the normalized
key synchronously on every keystroke with a non-empty trimmed query, before
any delay: the keystroke's operation log is exactly one cache lookup.  On a
hit the controller transitions to Ready immediately and never arms the
debounce timer (a subsequent timer-expiry event does nothing).  Only on a miss
does it arm the 300 ms timer, and the fetch is issued only when that timer
expires. -/
theorem cache_check_synchronous (s : SearchState) (q : String) (srt : SortKey)
    (hne : jsTrim q ≠ "") :
    (effectRun s q srt).2 = [SearchOp.cacheLookup (jsToLower (jsTrim q))] ∧
    (∀ cached, lookupCache s.cache (jsToLower (jsTrim q)) = some cached →
      (effectRun s q srt).1.loading = false ∧
      (effectRun s q srt).1.error = none ∧
      (effectRun s q srt).1.pendingTimer = none ∧
      (effectRun s q srt).1.characters
        = (stableSort (clientSort srt) cached).take DISPLAY_LIMIT ∧
      timerFire (effectRun s q srt).1 = ((effectRun s q srt).1, [])) ∧
    (lookupCache s.cache (jsToLower (jsTrim q)) = none →
      (effectRun s q srt).1.loading = true ∧
      (effectRun s q srt).1.pendingTimer
        = some ⟨s.generation + 1, jsTrim q, srt, API_DEBOUNCE_MS⟩ ∧
      (timerFire (effectRun s q srt).1).2
        = [SearchOp.fetchStart (jsTrim q) DISPLAY_LIMIT]) := by
  refine ⟨?_, ?_, ?_⟩
  · unfold effectRun
    simp only [hne, if_false]
    cases hc : lookupCache s.cache (jsToLower (jsTrim q)) <;> simp
  · intro cached hc
    unfold effectRun
    simp only [hne, if_false]
    rw [hc]
    simp [timerFire]
  · intro hc
    unfold effectRun
    simp only [hne, if_false]
    rw [hc]
    simp [timerFire]

/-- Witness for C6 (amended) at concrete inputs: a hit on "ant" from the
ready state renders immediately with no timer, and a miss on "bee" arms the
300 ms timer whose expiry issues the fetch. -/
theorem cache_check_synchronous_witness :
    ((effectRun readySearchState "ant" SortKey.nameAsc).1.pendingTimer = none ∧
      timerFire (effectRun readySearchState "ant" SortKey.nameAsc).1
        = ((effectRun readySearchState "ant" SortKey.nameAsc).1, [])) ∧
    ((effectRun readySearchState "bee" SortKey.nameAsc).1.loading = true ∧
      (timerFire (effectRun readySearchState "bee" SortKey.nameAsc).1).2
        = [SearchOp.fetchStart "bee" DISPLAY_LIMIT]) := by
  have h1 := cache_check_synchronous readySearchState "ant" SortKey.nameAsc (by decide)
  have h2 := cache_check_synchronous readySearchState "bee" SortKey.nameAsc (by decide)
  have ha := h1.2.1 [sampleSummary2, sampleSummary] (by decide)
  have hb := h2.2.2 (by decide)
  exact ⟨⟨ha.2.2.1, ha.2.2.2.2⟩, ⟨hb.1, by rw [hb.2.2]; decide⟩⟩

/-- Counterexample to C2 as stated: changing the sort option while Ready
re-runs the search effect, which performs a query-cache lookup for the
normalized key (the claim says no cache lookup is performed). -/
theorem sort_change_cache_lookup_cex :
    SearchOp.cacheLookup "ant" ∈ (effectRun readySearchState "ant" SortKey.comicsDesc).2 := by
  decide

/-- C2 (amended): changing the active sort option while Ready with unchanged
query text produces the new displayed state by re-sorting, with the new
comparator, the cached batch for the current query — which the effect re-reads
through one cache lookup — with no network access (no fetch is started, no
timer is armed, and the cache is not written); provided the remote honored the
request limit (batch no longer than the display limit), the new displayed set
is a permutation of the previously displayed set. -/
theorem sort_change_resorts_cached (s : SearchState) (q : String)
    (srt srt2 : SortKey) (batch : List CharacterSummary)
    (hne : jsTrim q ≠ "")
    (hcache : lookupCache s.cache (jsToLower (jsTrim q)) = some batch)
    (hready : s.characters = (stableSort (clientSort srt) batch).take DISPLAY_LIMIT)
    (hlen : batch.length ≤ DISPLAY_LIMIT) :
    (effectRun s q srt2).1.characters
      = (stableSort (clientSort srt2) batch).take DISPLAY_LIMIT ∧
    (effectRun s q srt2).2 = [SearchOp.cacheLookup (jsToLower (jsTrim q))] ∧
    (effectRun s q srt2).1.pendingTimer = none ∧
    timerFire (effectRun s q srt2).1 = ((effectRun s q srt2).1, []) ∧
    (effectRun s q srt2).1.cache = s.cache ∧
    List.Perm (effectRun s q srt2).1.characters s.characters := by
  have hrun : (effectRun s q srt2).1.characters
      = (stableSort (clientSort srt2) batch).take DISPLAY_LIMIT ∧
      (effectRun s q srt2).2 = [SearchOp.cacheLookup (jsToLower (jsTrim q))] ∧
      (effectRun s q srt2).1.pendingTimer = none ∧
      (effectRun s q srt2).1.cache = s.cache := by
    unfold effectRun
    simp only [hne, if_false]
    rw [hcache]
    simp
  have htimer : timerFire (effectRun s q srt2).1 = ((effectRun s q srt2).1, []) := by
    unfold timerFire
    rw [hrun.2.2.1]
  have hperm : List.Perm (effectRun s q srt2).1.characters s.characters := by
    rw [hrun.1, hready]
    have h2 : (stableSort (clientSort srt2) batch).length ≤ DISPLAY_LIMIT := by
      rw [(stableSort_perm (clientSort srt2) batch).length_eq]; exact hlen
    have h1 : (stableSort (clientSort srt) batch).length ≤ DISPLAY_LIMIT := by
      rw [(stableSort_perm (clientSort srt) batch).length_eq]; exact hlen
    rw [List.take_of_length_le h2, List.take_of_length_le h1]
    exact (stableSort_perm (clientSort srt2) batch).trans
      (stableSort_perm (clientSort srt) batch).symm
  exact ⟨hrun.1, hrun.2.1, hrun.2.2.1, htimer, hrun.2.2.2, hperm⟩

/-- Witness for C2 (amended) at concrete inputs: from the ready state for
"ant", switching the sort to most-comics re-sorts the cached batch with one
cache lookup and the new display is a permutation of the old one. -/
theorem sort_change_resorts_cached_witness :
    (effectRun readySearchState "ant" SortKey.comicsDesc).1.characters
      = (stableSort (clientSort SortKey.comicsDesc) [sampleSummary2, sampleSummary]).take DISPLAY_LIMIT ∧
    (effectRun readySearchState "ant" SortKey.comicsDesc).2 = [SearchOp.cacheLookup "ant"] ∧
    List.Perm (effectRun readySearchState "ant" SortKey.comicsDesc).1.characters
      readySearchState.characters :=
  have h := sort_change_resorts_cached readySearchState "ant" SortKey.nameAsc
    SortKey.comicsDesc [sampleSummary2, sampleSummary]
    (by decide) (by decide) rfl (by decide)
  ⟨h.1, by rw [h.2.1]; decide, h.2.2.2.2.2⟩

/-- C3: for a non-empty query whose normalized key is not yet cached, the full
first cycle (keystroke, timer expiry, successful fetch resolution) stores the
unsorted mapped fetch result in the cache and displays the sorted batch
truncated to the display limit; a second search with the same text then yields
exactly the same displayed summaries through a single cache lookup, with no
timer armed and no fetch started. -/
theorem cache_hit_second_search
    (s0 s1 s1f s2 : SearchState) (q : String) (srt : SortKey)
    (results : List MarvelCharacter)
    (hne : jsTrim q ≠ "")
    (hmiss : lookupCache s0.cache (jsToLower (jsTrim q)) = none)
    (hs1 : s1 = (effectRun s0 q srt).1)
    (hs1f : s1f = (timerFire s1).1)
    (hs2 : s2 = (resolveFetch s1f s1.generation (jsTrim q) srt (FetchResult.ok results)).1) :
    (timerFire s1).2 = [SearchOp.fetchStart (jsTrim q) DISPLAY_LIMIT] ∧
    lookupCache s2.cache (jsToLower (jsTrim q)) = some (results.map summarizeCharacter) ∧
    s2.characters
      = (stableSort (clientSort srt) (results.map summarizeCharacter)).take DISPLAY_LIMIT ∧
    (effectRun s2 q srt).1.characters = s2.characters ∧
    (effectRun s2 q srt).2 = [SearchOp.cacheLookup (jsToLower (jsTrim q))] ∧
    (effectRun s2 q srt).1.pendingTimer = none ∧
    timerFire (effectRun s2 q srt).1 = ((effectRun s2 q srt).1, []) := by
  have e1 : effectRun s0 q srt
      = ({ s0 with
            loading := true
            error := none
            generation := s0.generation + 1
            pendingTimer := some ⟨s0.generation + 1, jsTrim q, srt, API_DEBOUNCE_MS⟩ },
          [SearchOp.cacheLookup (jsToLower (jsTrim q))]) := by
    unfold effectRun
    simp only [hne, if_false]
    rw [hmiss]
  rw [e1] at hs1
  have e2 : timerFire s1
      = ({ s0 with
            loading := true
            error := none
            generation := s0.generation + 1
            pendingTimer := none },
          [SearchOp.fetchStart (jsTrim q) DISPLAY_LIMIT]) := by
    rw [hs1]
    unfold timerFire
    rfl
  rw [e2] at hs1f
  have hgen : s1.generation = s0.generation + 1 := by rw [hs1]
  have e3 : resolveFetch s1f s1.generation (jsTrim q) srt (FetchResult.ok results)
      = ({ s0 with
            loading := false
            error := none
            generation := s0.generation + 1
            pendingTimer := none
            cache := cacheSet s0.cache (jsToLower (jsTrim q)) (results.map summarizeCharacter)
            characters :=
              (stableSort (clientSort srt) (results.map summarizeCharacter)).take DISPLAY_LIMIT },
          [SearchOp.cacheWrite (jsToLower (jsTrim q))]) := by
    rw [hs1f, hgen]
    unfold resolveFetch
    simp
  rw [e3] at hs2
  have hlook : lookupCache s2.cache (jsToLower (jsTrim q))
      = some (results.map summarizeCharacter) := by
    rw [hs2]
    exact lookupCache_cacheSet_self _ _ _
  have e4 : effectRun s2 q srt
      = ({ s2 with
            generation := s2.generation + 1
            pendingTimer := none
            error := none
            loading := false
            characters :=
              (stableSort (clientSort srt) (results.map summarizeCharacter)).take DISPLAY_LIMIT },
          [SearchOp.cacheLookup (jsToLower (jsTrim q))]) := by
    unfold effectRun
    simp only [hne, if_false]
    rw [hlook]
  refine ⟨by rw [e2], hlook, by rw [hs2], ?_, by rw [e4], ?_, ?_⟩
  · rw [e4, hs2]
  · rw [e4]
  · unfold timerFire
    rw [e4]

/-- Witness for C3 at concrete inputs: searching "ant" from the initial state,
resolving the fetch with one sample record, then searching "ant" again hits
the cache and redisplays the same summaries. -/
theorem cache_hit_second_search_witness :
    lookupCache
        ((resolveFetch (timerFire (effectRun initialSearchState "ant" SortKey.nameAsc).1).1
            (effectRun initialSearchState "ant" SortKey.nameAsc).1.generation
            (jsTrim "ant") SortKey.nameAsc (FetchResult.ok [sampleMarvel])).1).cache
        (jsToLower (jsTrim "ant"))
      = some ([sampleMarvel].map summarizeCharacter) ∧
    (effectRun
        (resolveFetch (timerFire (effectRun initialSearchState "ant" SortKey.nameAsc).1).1
            (effectRun initialSearchState "ant" SortKey.nameAsc).1.generation
            (jsTrim "ant") SortKey.nameAsc (FetchResult.ok [sampleMarvel])).1
        "ant" SortKey.nameAsc).1.characters
      = ((resolveFetch (timerFire (effectRun initialSearchState "ant" SortKey.nameAsc).1).1
            (effectRun initialSearchState "ant" SortKey.nameAsc).1.generation
            (jsTrim "ant") SortKey.nameAsc (FetchResult.ok [sampleMarvel])).1).characters :=
  have h := cache_hit_second_search initialSearchState
    (effectRun initialSearchState "ant" SortKey.nameAsc).1
    (timerFire (effectRun initialSearchState "ant" SortKey.nameAsc).1).1
    (resolveFetch (timerFire (effectRun initialSearchState "ant" SortKey.nameAsc).1).1
        (effectRun initialSearchState "ant" SortKey.nameAsc).1.generation
        (jsTrim "ant") SortKey.nameAsc (FetchResult.ok [sampleMarvel])).1
    "ant" SortKey.nameAsc [sampleMarvel] (by decide) (by decide) rfl rfl rfl
  ⟨h.2.1, h.2.2.2.1⟩

/-- Neighbor entry held by the detail view (`CharacterSummary` as declared in
DetailView.tsx): an id and a name. -/
structure NeighborEntry where
  id : Nat
  name : String
deriving DecidableEq, Repr

/-- Detail record displayed by the detail view (`DetailData`). -/
structure DetailData where
  id : Nat
  name : String
  description : String
  thumbnailUrl : String
  comics : List String
  series : List String
  events : List String
  stories : List String
deriving DecidableEq, Repr

/-- Embedding of `buildHeroImage` (DetailView.tsx). -/
def buildHeroImage (thumbnail : Option MarvelImage) : String :=
  match thumbnail with
  | none => DEFAULT_POSTER
  | some img =>
      if img.path = "" || stringIncludes img.path "image_not_available" then DEFAULT_POSTER
      else ensureHttps img.path ++ "/landscape_incredible." ++ img.extension

/-- Embedding of `extractNames` (DetailView.tsx): item names, truthy
(non-empty) ones only, truncated to the given limit (the source defaults the
limit to 6; call sites here pass it explicitly). -/
def extractNames (summary : ResourceList) (limit : Nat) : List String :=
  ((summary.items.map ResourceItem.name).filter (fun n => decide (n ≠ ""))).take limit

/-- Embedding of `mapToDetail` (DetailView.tsx); an all-whitespace (falsy
after trim) description falls back to the placeholder text. -/
def mapToDetail (character : MarvelCharacter) : DetailData :=
  { id := character.id
    name := character.name
    description :=
      if jsTrim character.description = "" then "No description available."
      else jsTrim character.description
    thumbnailUrl := buildHeroImage character.thumbnail
    comics := extractNames character.comics 6
    series := extractNames character.series 6
    events := extractNames character.events 4
    stories := extractNames character.stories 4 }

/-- Embedding of the repair key `detail.name.trim().slice(0, 1) || 'A'`
(DetailView.tsx loadNeighbors): the first character of the trimmed name, or
"A" when the trimmed name is empty (the empty slice is falsy). -/
def repairFirstLetter (name : String) : String :=
  match (jsTrim name).data with
  | [] => "A"
  | ch :: _ => ⟨[ch]⟩

/-- Search parameters of `getCharacters` as issued by the detail view repair
fetch (`CharacterSearchParams` in the API module). -/
structure CharacterSearchParams where
  limit : Option Nat
  nameStartsWith : Option String
  orderBy : Option String
deriving DecidableEq, Repr

/-- The request issued by the repair fetch:
`getCharacters` with limit 100, the first-letter name-start string, and
name ordering. -/
def repairRequest (detail : DetailData) : CharacterSearchParams :=
  { limit := some 100
    nameStartsWith := some (repairFirstLetter detail.name)
    orderBy := some "name" }

/-- Comparator `(a, b) => a.name.localeCompare(b.name)` used twice by the
repair logic. -/
def byNameCompare (a b : NeighborEntry) : Int :=
  localeCompare a.name b.name

/-- Embedding of the `loadNeighbors` resolution (DetailView.tsx): on success,
map the fetched records to (id, name) pairs, sort them by name, and if the
current id is missing append the current record and sort again; on failure,
fall back to the single-element list holding the current record. -/
def repairNeighbors (detail : DetailData) (r : FetchResult) : List NeighborEntry :=
  match r with
  | FetchResult.ok results =>
      let named := stableSort byNameCompare (results.map (fun c => ⟨c.id, c.name⟩))
      if named.any (fun item => item.id == detail.id) then named
      else stableSort byNameCompare (named ++ [⟨detail.id, detail.name⟩])
  | FetchResult.err => [⟨detail.id, detail.name⟩]

/-- Embedding of JavaScript `Array.prototype.findIndex` restricted to its
successful image: the index of the first element satisfying the predicate,
`none` standing for the -1 "not found" result. -/
def findFirstIdx (p : α → Bool) : List α → Option Nat
  | [] => none
  | x :: xs => if p x then some 0 else (findFirstIdx p xs).map (· + 1)

/-- Embedding of `currentIndex` (DetailView.tsx): `findIndex` result as the
JavaScript number, -1 when the id does not occur. -/
def currentIndex (neighbors : List NeighborEntry) (numericId : Nat) : Int :=
  match findFirstIdx (fun item => item.id == numericId) neighbors with
  | some i => (i : Int)
  | none => -1

/-- Embedding of `previousCharacter` (DetailView.tsx). -/
def previousCharacter (neighbors : List NeighborEntry) (numericId : Nat) : Option NeighborEntry :=
  if 0 < currentIndex neighbors numericId then
    neighbors.get? (currentIndex neighbors numericId - 1).toNat
  else none

/-- Embedding of `nextCharacter` (DetailView.tsx). -/
def nextCharacter (neighbors : List NeighborEntry) (numericId : Nat) : Option NeighborEntry :=
  if 0 ≤ currentIndex neighbors numericId ∧
      currentIndex neighbors numericId < (neighbors.length : Int) - 1 then
    neighbors.get? (currentIndex neighbors numericId + 1).toNat
  else none

/-- Detail view navigation state: the current route id and the neighbor list
held in component state. -/
structure DetailViewState where
  currentId : Nat
  neighbors : List NeighborEntry
deriving DecidableEq, Repr

/-- Arrival at a detail route: the neighbor state starts from the
location state when present (`[...locationState.neighbors]`, an equal copy),
and empty otherwise. -/
def arriveDetail (id : Nat) (locState : Option (List NeighborEntry)) : DetailViewState :=
  { currentId := id, neighbors := locState.getD [] }

/-- Whether the repair effect will issue a fetch for this view: it returns
early exactly when the current id occurs in the held neighbor list
(`hasCurrent`), so repair fetches happen only when it is absent. -/
def needsRepair (v : DetailViewState) : Bool :=
  !(v.neighbors.any (fun item => item.id == v.currentId))

/-- Embedding of `handleNavigate` (DetailView.tsx): with a truthy id, navigate
to the detail route for that id carrying the current neighbor list in the
location state; a missing or zero (falsy) id does nothing. -/
def handleNavigate (v : DetailViewState) (id : Option Nat) : DetailViewState :=
  match id with
  | some i => if i ≠ 0 then arriveDetail i (some v.neighbors) else v
  | none => v

theorem findFirstIdx_get? (p : α → Bool) (l : List α) (i : Nat)
    (h : findFirstIdx p l = some i) :
    ∃ x, l.get? i = some x ∧ p x = true := by
  induction l generalizing i with
  | nil => simp [findFirstIdx] at h
  | cons x xs ih =>
      unfold findFirstIdx at h
      by_cases hp : p x
      · simp [hp] at h
        exact ⟨x, by simp [← h], hp⟩
      · simp [hp] at h
        obtain ⟨j, hj, hj2⟩ := h
        obtain ⟨y, hy, hpy⟩ := ih j hj
        refine ⟨y, ?_, hpy⟩
        rw [← hj2]
        simpa using hy

theorem findFirstIdx_lt_length (p : α → Bool) (l : List α) (i : Nat)
    (h : findFirstIdx p l = some i) : i < l.length := by
  obtain ⟨x, hx, _⟩ := findFirstIdx_get? p l i h
  exact List.get?_eq_some.mp hx |>.1

/-- C8: previous() yields the entry immediately preceding the first entry
whose id equals the current id, and none when that entry is first or the id
does not occur; next() yields the entry immediately following it, and none
when that entry is last or the id does not occur (the out-of-range lookup
`neighbors.get? (i + 1)` is `none` exactly at the last position). -/
theorem prev_next_adjacency (ns : List NeighborEntry) (numericId : Nat) :
    (findFirstIdx (fun e => e.id == numericId) ns = none →
      previousCharacter ns numericId = none ∧ nextCharacter ns numericId = none) ∧
    (∀ i, findFirstIdx (fun e => e.id == numericId) ns = some i →
      (previousCharacter ns numericId = if i = 0 then none else ns.get? (i - 1)) ∧
      nextCharacter ns numericId = ns.get? (i + 1)) := by
  constructor
  · intro hnone
    have hcur : currentIndex ns numericId = -1 := by
      unfold currentIndex
      rw [hnone]
    unfold previousCharacter nextCharacter
    rw [hcur]
    norm_num
  · intro i hsome
    have hlen : i < ns.length := findFirstIdx_lt_length _ _ _ hsome
    have hcur : currentIndex ns numericId = (i : Int) := by
      unfold currentIndex
      rw [hsome]
    unfold previousCharacter nextCharacter
    rw [hcur]
    constructor
    · by_cases h0 : i = 0
      · simp [h0]
      · have hpos : (0 : Int) < (i : Int) := by
          have := Nat.pos_of_ne_zero h0
          exact_mod_cast this
        rw [if_pos hpos, if_neg h0]
        congr 1
        omega
    · by_cases hlast : (i : Int) < (ns.length : Int) - 1
      · rw [if_pos ⟨by exact_mod_cast Nat.zero_le i, hlast⟩]
        have harith : ((i : Int) + 1).toNat = i + 1 := by omega
        rw [harith]
      · rw [if_neg (by intro hc; exact hlast hc.2)]
        have hge : ns.length ≤ i + 1 := by omega
        exact (List.get?_eq_none.mpr hge).symm

/-- Witness for C8 on the three-element neighbor list [A, B, C]: at B the
previous and next entries are A and C, at A previous is none, at C next is
none, and at an absent id both are none. -/
theorem prev_next_adjacency_witness :
    previousCharacter [⟨1, "A"⟩, ⟨2, "B"⟩, ⟨3, "C"⟩] 2 = some ⟨1, "A"⟩ ∧
    nextCharacter [⟨1, "A"⟩, ⟨2, "B"⟩, ⟨3, "C"⟩] 2 = some ⟨3, "C"⟩ ∧
    previousCharacter [⟨1, "A"⟩, ⟨2, "B"⟩, ⟨3, "C"⟩] 1 = none ∧
    nextCharacter [⟨1, "A"⟩, ⟨2, "B"⟩, ⟨3, "C"⟩] 3 = none ∧
    previousCharacter [⟨1, "A"⟩, ⟨2, "B"⟩, ⟨3, "C"⟩] 9 = none ∧
    nextCharacter [⟨1, "A"⟩, ⟨2, "B"⟩, ⟨3, "C"⟩] 9 = none := by
  have hB := (prev_next_adjacency [⟨1, "A"⟩, ⟨2, "B"⟩, ⟨3, "C"⟩] 2).2 1 (by decide)
  have hA := (prev_next_adjacency [⟨1, "A"⟩, ⟨2, "B"⟩, ⟨3, "C"⟩] 1).2 0 (by decide)
  have hC := (prev_next_adjacency [⟨1, "A"⟩, ⟨2, "B"⟩, ⟨3, "C"⟩] 3).2 2 (by decide)
  have hN := (prev_next_adjacency [⟨1, "A"⟩, ⟨2, "B"⟩, ⟨3, "C"⟩] 9).1 (by decide)
  refine ⟨?_, ?_, ?_, ?_, hN.1, hN.2⟩
  · rw [hB.1]; decide
  · rw [hB.2]; decide
  · rw [hA.1]; decide
  · rw [hC.2]; decide

theorem findFirstIdx_nodup_at (f : α → Nat) (l : List α)
    (hnodup : (l.map f).Nodup) (j : Nat) (x : α) (hx : l.get? j = some x) :
    findFirstIdx (fun e => f e == f x) l = some j := by
  induction l generalizing j with
  | nil => simp at hx
  | cons y ys ih =>
      have hnodup2 : (f y :: List.map f ys).Nodup := by simpa using hnodup
      rcases List.nodup_cons.mp hnodup2 with ⟨hy, hys⟩
      cases j with
      | zero =>
          have hxy : y = x := by simpa using hx
          unfold findFirstIdx
          rw [hxy]
          simp
      | succ j =>
          have hx2 : ys.get? j = some x := by simpa using hx
          have hxmem : x ∈ ys := List.get?_mem hx2
          have hne : f y ≠ f x := by
            intro heq
            exact hy (heq ▸ List.mem_map_of_mem f hxmem)
          unfold findFirstIdx
          rw [if_neg (by simpa using hne)]
          rw [ih hys j hx2]
          rfl

/-- C9: when the current id occurs at a non-final position of a duplicate-free
(by id) neighbor list of truthy ids, no repair fetch is pending, stepping to
next() carries the same neighbor list into the new view (still no repair
fetch), and stepping back through previous() returns to the original detail
record, again with the same neighbor list and no repair fetch anywhere along
the way. -/
theorem navigate_roundtrip
    (ns : List NeighborEntry) (numericId : Nat) (i : Nat) (v1 v2 : DetailViewState)
    (hnodup : (ns.map NeighborEntry.id).Nodup)
    (hpos : ∀ e, e ∈ ns → e.id ≠ 0)
    (hidx : findFirstIdx (fun e => e.id == numericId) ns = some i)
    (hlt : i + 1 < ns.length)
    (hv1 : v1 = handleNavigate ⟨numericId, ns⟩
        (Option.map NeighborEntry.id (nextCharacter ns numericId)))
    (hv2 : v2 = handleNavigate v1
        (Option.map NeighborEntry.id (previousCharacter v1.neighbors v1.currentId))) :
    needsRepair ⟨numericId, ns⟩ = false ∧
    nextCharacter ns numericId = ns.get? (i + 1) ∧
    v1.neighbors = ns ∧
    needsRepair v1 = false ∧
    previousCharacter v1.neighbors v1.currentId = ns.get? i ∧
    v2.currentId = numericId ∧
    v2.neighbors = ns ∧
    needsRepair v2 = false := by
  obtain ⟨x0, hx0, hpx0⟩ := findFirstIdx_get? _ _ _ hidx
  have hx0id : x0.id = numericId := by simpa using hpx0
  have hx0mem : x0 ∈ ns := List.get?_mem hx0
  have hb0 : (x0.id == numericId) = true := by
    rw [hx0id]
    exact beq_self_eq_true numericId
  have hany0 : ns.any (fun item => item.id == numericId) = true :=
    List.any_eq_true.mpr ⟨x0, hx0mem, hb0⟩
  have hrep0 : needsRepair ⟨numericId, ns⟩ = false := by
    unfold needsRepair
    simp [hany0]
  have hnext : nextCharacter ns numericId = ns.get? (i + 1) :=
    ((prev_next_adjacency ns numericId).2 i hidx).2
  have he1 : ns.get? (i + 1) = some (ns.get ⟨i + 1, hlt⟩) := List.get?_eq_get hlt
  obtain ⟨e1, he1'⟩ : ∃ e1, ns.get? (i + 1) = some e1 := ⟨_, he1⟩
  have he1mem : e1 ∈ ns := List.get?_mem he1'
  have he1pos : e1.id ≠ 0 := hpos e1 he1mem
  have hv1' : v1 = ⟨e1.id, ns⟩ := by
    rw [hv1, hnext, he1']
    unfold handleNavigate arriveDetail
    simp [he1pos]
  have hany1 : ns.any (fun item => item.id == e1.id) = true :=
    List.any_eq_true.mpr ⟨e1, he1mem, beq_self_eq_true e1.id⟩
  have hrep1 : needsRepair v1 = false := by
    rw [hv1']
    unfold needsRepair
    simp [hany1]
  have hidx1 : findFirstIdx (fun e => e.id == e1.id) ns = some (i + 1) :=
    findFirstIdx_nodup_at NeighborEntry.id ns hnodup (i + 1) e1 he1'
  have hprev : previousCharacter ns e1.id = ns.get? i := by
    have h := ((prev_next_adjacency ns e1.id).2 (i + 1) hidx1).1
    rw [h, if_neg (Nat.succ_ne_zero i)]
    simp
  have hprev1 : previousCharacter v1.neighbors v1.currentId = ns.get? i := by
    rw [hv1']
    exact hprev
  have hnum0 : numericId ≠ 0 := hx0id ▸ hpos x0 hx0mem
  have hv2' : v2 = ⟨numericId, ns⟩ := by
    rw [hv2, hprev1, hx0]
    rw [hv1']
    unfold handleNavigate arriveDetail
    simp [hx0id, hnum0]
  refine ⟨hrep0, hnext, by rw [hv1'], hrep1, hprev1, by rw [hv2'], by rw [hv2'], ?_⟩
  rw [hv2']
  exact hrep0

/-- Witness for C9 on the list [A, B, C] with current id 1: next() goes to B,
previous() returns to A, the neighbor list [A, B, C] is carried unchanged, and
no repair fetch is needed at any step. -/
theorem navigate_roundtrip_witness :
    needsRepair ⟨1, [⟨1, "A"⟩, ⟨2, "B"⟩, ⟨3, "C"⟩]⟩ = false ∧
    (handleNavigate
        (handleNavigate ⟨1, [⟨1, "A"⟩, ⟨2, "B"⟩, ⟨3, "C"⟩]⟩
          (Option.map NeighborEntry.id (nextCharacter [⟨1, "A"⟩, ⟨2, "B"⟩, ⟨3, "C"⟩] 1)))
        (Option.map NeighborEntry.id
          (previousCharacter
            (handleNavigate ⟨1, [⟨1, "A"⟩, ⟨2, "B"⟩, ⟨3, "C"⟩]⟩
              (Option.map NeighborEntry.id (nextCharacter [⟨1, "A"⟩, ⟨2, "B"⟩, ⟨3, "C"⟩] 1))).neighbors
            (handleNavigate ⟨1, [⟨1, "A"⟩, ⟨2, "B"⟩, ⟨3, "C"⟩]⟩
              (Option.map NeighborEntry.id (nextCharacter [⟨1, "A"⟩, ⟨2, "B"⟩, ⟨3, "C"⟩] 1))).currentId))).currentId
      = 1 ∧
    (handleNavigate
        (handleNavigate ⟨1, [⟨1, "A"⟩, ⟨2, "B"⟩, ⟨3, "C"⟩]⟩
          (Option.map NeighborEntry.id (nextCharacter [⟨1, "A"⟩, ⟨2, "B"⟩, ⟨3, "C"⟩] 1)))
        (Option.map NeighborEntry.id
          (previousCharacter
            (handleNavigate ⟨1, [⟨1, "A"⟩, ⟨2, "B"⟩, ⟨3, "C"⟩]⟩
              (Option.map NeighborEntry.id (nextCharacter [⟨1, "A"⟩, ⟨2, "B"⟩, ⟨3, "C"⟩] 1))).neighbors
            (handleNavigate ⟨1, [⟨1, "A"⟩, ⟨2, "B"⟩, ⟨3, "C"⟩]⟩
              (Option.map NeighborEntry.id (nextCharacter [⟨1, "A"⟩, ⟨2, "B"⟩, ⟨3, "C"⟩] 1))).currentId))).neighbors
      = [⟨1, "A"⟩, ⟨2, "B"⟩, ⟨3, "C"⟩] :=
  have h := navigate_roundtrip [⟨1, "A"⟩, ⟨2, "B"⟩, ⟨3, "C"⟩] 1 0
    (handleNavigate ⟨1, [⟨1, "A"⟩, ⟨2, "B"⟩, ⟨3, "C"⟩]⟩
      (Option.map NeighborEntry.id (nextCharacter [⟨1, "A"⟩, ⟨2, "B"⟩, ⟨3, "C"⟩] 1)))
    (handleNavigate
      (handleNavigate ⟨1, [⟨1, "A"⟩, ⟨2, "B"⟩, ⟨3, "C"⟩]⟩
        (Option.map NeighborEntry.id (nextCharacter [⟨1, "A"⟩, ⟨2, "B"⟩, ⟨3, "C"⟩] 1)))
      (Option.map NeighborEntry.id
        (previousCharacter
          (handleNavigate ⟨1, [⟨1, "A"⟩, ⟨2, "B"⟩, ⟨3, "C"⟩]⟩
            (Option.map NeighborEntry.id (nextCharacter [⟨1, "A"⟩, ⟨2, "B"⟩, ⟨3, "C"⟩] 1))).neighbors
          (handleNavigate ⟨1, [⟨1, "A"⟩, ⟨2, "B"⟩, ⟨3, "C"⟩]⟩
            (Option.map NeighborEntry.id (nextCharacter [⟨1, "A"⟩, ⟨2, "B"⟩, ⟨3, "C"⟩] 1))).currentId)))
    (by decide) (by decide) (by decide) (by decide) rfl rfl
  ⟨h.1, h.2.2.2.2.2.1, h.2.2.2.2.2.2.1⟩

theorem byNameCompare_tot (a b : NeighborEntry) (h : ¬ byNameCompare a b < 0) :
    byNameCompare b a ≤ 0 :=
  localeCompare_tot a.name b.name h

theorem byNameCompare_trans (a b d : NeighborEntry)
    (hab : byNameCompare a b ≤ 0) (hbd : byNameCompare b d ≤ 0) :
    byNameCompare a d ≤ 0 :=
  localeCompare_trans a.name b.name d.name hab hbd

/-- C4: the repair fetch is requested with a name-start string equal to the
first character of the current record's trimmed name ("A" when the trimmed
name is empty), limit 100, ordered by name; on fetch failure the resulting
neighbor list is exactly the singleton holding the current record; on fetch
success the current id is always present in the result, the result is sorted
by name ascending, and it consists of exactly the fetched (id, name) records
when they already contain the current id, and of the fetched records plus the
current record otherwise (the current record placed at its name-ascending
position, by sortedness). -/
theorem neighbor_repair_spec (detail : DetailData) (results : List MarvelCharacter) :
    (jsTrim detail.name = "" → (repairRequest detail).nameStartsWith = some "A") ∧
    (jsTrim detail.name ≠ "" →
      (repairRequest detail).nameStartsWith = some ⟨(jsTrim detail.name).data.take 1⟩) ∧
    (repairRequest detail).limit = some 100 ∧
    (repairRequest detail).orderBy = some "name" ∧
    repairNeighbors detail FetchResult.err = [⟨detail.id, detail.name⟩] ∧
    detail.id ∈ (repairNeighbors detail (FetchResult.ok results)).map NeighborEntry.id ∧
    (repairNeighbors detail (FetchResult.ok results)).Pairwise
      (fun a b => localeCompare a.name b.name ≤ 0) ∧
    (detail.id ∈ (results.map (fun c => (⟨c.id, c.name⟩ : NeighborEntry))).map NeighborEntry.id →
      List.Perm (repairNeighbors detail (FetchResult.ok results))
        (results.map (fun c => ⟨c.id, c.name⟩))) ∧
    (detail.id ∉ (results.map (fun c => (⟨c.id, c.name⟩ : NeighborEntry))).map NeighborEntry.id →
      List.Perm (repairNeighbors detail (FetchResult.ok results))
        (⟨detail.id, detail.name⟩ :: results.map (fun c => ⟨c.id, c.name⟩))) := by
  have hpre1 : jsTrim detail.name = "" → (repairRequest detail).nameStartsWith = some "A" := by
    intro h
    unfold repairRequest repairFirstLetter
    rw [h]
  have hpre2 : jsTrim detail.name ≠ "" →
      (repairRequest detail).nameStartsWith = some ⟨(jsTrim detail.name).data.take 1⟩ := by
    intro h
    unfold repairRequest repairFirstLetter
    cases hd : (jsTrim detail.name).data with
    | nil => exact absurd (String.ext (by rw [hd])) h
    | cons ch rest => simp
  set named0 := results.map (fun c => (⟨c.id, c.name⟩ : NeighborEntry)) with hnamed0
  set named := stableSort byNameCompare named0 with hnamed
  have hperm : List.Perm named named0 := stableSort_perm byNameCompare named0
  have hdef : repairNeighbors detail (FetchResult.ok results)
      = (if named.any (fun item => item.id == detail.id)
          then named
          else stableSort byNameCompare (named ++ [⟨detail.id, detail.name⟩])) := rfl
  have hmemiff : named.any (fun item => item.id == detail.id) = true ↔
      detail.id ∈ named0.map NeighborEntry.id := by
    rw [List.any_eq_true]
    constructor
    · rintro ⟨e, he, hbe⟩
      have : e.id = detail.id := by simpa using hbe
      exact this ▸ List.mem_map_of_mem NeighborEntry.id (hperm.mem_iff.mp he)
    · intro hmem
      obtain ⟨e, he, heid⟩ := List.mem_map.mp hmem
      exact ⟨e, hperm.mem_iff.mpr he, by simp [heid]⟩
  cases hc : named.any (fun item => item.id == detail.id) with
  | true =>
      have hres : repairNeighbors detail (FetchResult.ok results) = named := by
        rw [hdef, if_pos hc]
      refine ⟨hpre1, hpre2, rfl, rfl, rfl, ?_, ?_, ?_, ?_⟩
      · rw [hres]
        obtain ⟨e, he, hbe⟩ := List.any_eq_true.mp hc
        have heid : e.id = detail.id := by simpa using hbe
        exact heid ▸ List.mem_map_of_mem NeighborEntry.id he
      · rw [hres]
        exact stableSort_pairwise byNameCompare byNameCompare_tot byNameCompare_trans named0
      · intro _
        rw [hres]
        exact hperm
      · intro hnm
        exact absurd (hmemiff.mp hc) hnm
  | false =>
      have hres : repairNeighbors detail (FetchResult.ok results)
          = stableSort byNameCompare (named ++ [⟨detail.id, detail.name⟩]) := by
        rw [hdef, if_neg (by simp [hc])]
      have hperm2 : List.Perm (repairNeighbors detail (FetchResult.ok results))
          ((⟨detail.id, detail.name⟩ : NeighborEntry) :: named0) := by
        rw [hres]
        refine (stableSort_perm byNameCompare _).trans ?_
        refine (List.perm_append_singleton _ _).trans ?_
        exact hperm.cons _
      refine ⟨hpre1, hpre2, rfl, rfl, rfl, ?_, ?_, ?_, ?_⟩
      · have : (⟨detail.id, detail.name⟩ : NeighborEntry)
            ∈ repairNeighbors detail (FetchResult.ok results) :=
          hperm2.mem_iff.mpr (List.mem_cons_self _ _)
        exact List.mem_map_of_mem NeighborEntry.id this
      · rw [hres]
        exact stableSort_pairwise byNameCompare byNameCompare_tot byNameCompare_trans _
      · intro hmem
        have := hmemiff.mpr hmem
        rw [hc] at this
        exact absurd this (by simp)
      · intro _
        exact hperm2

/-- Sample detail record used by the repair witness. -/
def sampleDetail : DetailData :=
  { id := 5, name := "Hulk", description := "d", thumbnailUrl := "t"
    comics := [], series := [], events := [], stories := [] }

/-- Witness for C4 at concrete inputs: for the record "Hulk" (id 5) and a
fetch result not containing id 5, the repair requests the letter "H", falls
back to the singleton on failure, and on success produces the name-sorted
fetched records merged with the current record. -/
theorem neighbor_repair_spec_witness :
    (repairRequest sampleDetail).nameStartsWith = some "H" ∧
    repairNeighbors sampleDetail FetchResult.err = [⟨5, "Hulk"⟩] ∧
    5 ∈ (repairNeighbors sampleDetail (FetchResult.ok [sampleMarvel])).map NeighborEntry.id ∧
    List.Perm (repairNeighbors sampleDetail (FetchResult.ok [sampleMarvel]))
      [⟨5, "Hulk"⟩, ⟨7, "Ant-Man"⟩] :=
  have h := neighbor_repair_spec sampleDetail [sampleMarvel]
  ⟨by rw [h.2.1 (by decide)]; decide,
    h.2.2.2.2.1,
    h.2.2.2.2.2.1,
    by
      have hp := h.2.2.2.2.2.2.2.2 (by decide)
      refine hp.trans ?_
      decide⟩

/-- Activity levels derived from comic counts (GalleryView.tsx). -/
inductive ActivityLevel where
  | legend
  | veteran
  | rookie
deriving DecidableEq, Repr

/-- Gallery character (GalleryView.tsx): summary fields plus the derived
activity level and the at-most-five series tags. -/
structure GalleryCharacter where
  id : Nat
  name : String
  thumbnailUrl : String
  comics : Nat
  events : Nat
  activity : ActivityLevel
  series : List String
deriving DecidableEq, Repr

/-- Embedding of the gallery `buildThumbnailUrl` (standard_fantastic
variant). -/
def buildGalleryThumbnailUrl (thumbnail : Option MarvelImage) : String :=
  match thumbnail with
  | none => DEFAULT_POSTER
  | some img =>
      if img.path = "" || stringIncludes img.path "image_not_available" then DEFAULT_POSTER
      else ensureHttps img.path ++ "/standard_fantastic." ++ img.extension

/-- Embedding of `classifyActivity` (GalleryView.tsx). -/
def classifyActivity (comicCount : Nat) : ActivityLevel :=
  if comicCount ≥ 1000 then ActivityLevel.legend
  else if comicCount ≥ 200 then ActivityLevel.veteran
  else ActivityLevel.rookie

/-- Embedding of `pickSeries` (GalleryView.tsx): item names, truthy
(non-empty) ones only, first five. -/
def pickSeries (character : MarvelCharacter) : List String :=
  ((character.series.items.map ResourceItem.name).filter (fun n => decide (n ≠ ""))).take 5

/-- Embedding of `mapToGalleryCharacter` (GalleryView.tsx). -/
def mapToGalleryCharacter (character : MarvelCharacter) : GalleryCharacter :=
  { id := character.id
    name := character.name
    thumbnailUrl := buildGalleryThumbnailUrl character.thumbnail
    comics := character.comics.available
    events := character.events.available
    activity := classifyActivity character.comics.available
    series := pickSeries character }

/-- Embedding of the frequency-map update
`frequency.set(seriesName, (frequency.get(seriesName) ?? 0) + 1)` over the
insertion-ordered association list: an existing key is bumped in place, a new
key is appended with count one. -/
def bumpFreq : List (String × Nat) → String → List (String × Nat)
  | [], n => [(n, 1)]
  | (k, v) :: rest, n => if k = n then (k, v + 1) :: rest else (k, v) :: bumpFreq rest n

/-- The frequency map built by the gallery load: fold of `bumpFreq` over all
series tags in traversal order (the two nested forEach loops). -/
def freqEntries (tags : List String) : List (String × Nat) :=
  tags.foldl bumpFreq []

/-- All series tags of the mapped gallery characters in traversal order. -/
def seriesTags (mapped : List GalleryCharacter) : List String :=
  mapped.flatMap GalleryCharacter.series

/-- Embedding of the facet computation `sortedSeries` (GalleryView.tsx):
frequency entries with count at least 2, sorted descending by count with the
stable array sort, truncated to the first 8, names only. -/
def computeSeriesFilters (mapped : List GalleryCharacter) : List String :=
  (((stableSort (fun a b => ((b.2 : Int) - (a.2 : Int)))
      ((freqEntries (seriesTags mapped)).filter (fun e => decide (2 ≤ e.2)))).take 8).map
    Prod.fst)

/-- Gallery view state: the held characters, the two selection sets (JS `Set`
objects modelled as duplicate-free lists), the facet list, and the load
status. -/
structure GalleryState where
  characters : List GalleryCharacter
  selectedActivity : List ActivityLevel
  selectedSeries : List String
  seriesFilters : List String
  loading : Bool
  error : Option String
deriving DecidableEq, Repr

/-- Initial gallery state on mount. -/
def initialGalleryState : GalleryState :=
  { characters := [], selectedActivity := [], selectedSeries := []
    seriesFilters := [], loading := false, error := none }

/-- The request issued by the gallery bulk load:
`getCharacters({ limit: 100, orderBy: '-modified' })`. -/
def galleryLoadRequest : CharacterSearchParams :=
  { limit := some 100, nameStartsWith := none, orderBy := some "-modified" }

/-- Gallery load error message. -/
def galleryErrorMessage : String := "Unable to load gallery right now."

/-- Resolution of the gallery bulk load (GalleryView.tsx `load`): on success,
hold the mapped characters and compute the facet list once; on failure, set
the error message. -/
def galleryLoadResolve (s : GalleryState) (r : FetchResult) : GalleryState :=
  match r with
  | FetchResult.ok results =>
      let mapped := results.map mapToGalleryCharacter
      { s with
        characters := mapped
        seriesFilters := computeSeriesFilters mapped
        loading := false }
  | FetchResult.err => { s with error := some galleryErrorMessage, loading := false }

/-- JavaScript `Set` membership flip: delete a present value, add an absent
one (at the end, matching Set insertion order). -/
def toggleSet [DecidableEq α] (s : List α) (v : α) : List α :=
  if v ∈ s then s.erase v else s ++ [v]

/-- Embedding of `toggleActivity` (GalleryView.tsx). -/
def toggleActivity (s : GalleryState) (v : ActivityLevel) : GalleryState :=
  { s with selectedActivity := toggleSet s.selectedActivity v }

/-- Embedding of `toggleSeries` (GalleryView.tsx). -/
def toggleSeries (s : GalleryState) (n : String) : GalleryState :=
  { s with selectedSeries := toggleSet s.selectedSeries n }

/-- Embedding of `clearFilters` (GalleryView.tsx). -/
def clearFilters (s : GalleryState) : GalleryState :=
  { s with selectedActivity := [], selectedSeries := [] }

/-- Embedding of `filteredCharacters` (GalleryView.tsx): AND of two ORs, an
empty selection set matching everything. -/
def filteredCharacters (s : GalleryState) : List GalleryCharacter :=
  s.characters.filter (fun character =>
    (s.selectedActivity.isEmpty || s.selectedActivity.contains character.activity) &&
    (s.selectedSeries.isEmpty || character.series.any (fun n => s.selectedSeries.contains n)))

/-- C10: the derived activity level is a total function of the comics count
alone: legend exactly when the count is at least 1000, veteran exactly when it
is between 200 and 999, rookie exactly when it is below 200; the three classes
partition all counts. -/
theorem classify_activity_partition (n : Nat) :
    (classifyActivity n = ActivityLevel.legend ↔ 1000 ≤ n) ∧
    (classifyActivity n = ActivityLevel.veteran ↔ 200 ≤ n ∧ n ≤ 999) ∧
    (classifyActivity n = ActivityLevel.rookie ↔ n < 200) := by
  unfold classifyActivity
  by_cases h1 : 1000 ≤ n
  · rw [if_pos h1]
    exact ⟨⟨fun _ => h1, fun _ => rfl⟩,
      ⟨fun h => ActivityLevel.noConfusion h, fun h => by omega⟩,
      ⟨fun h => ActivityLevel.noConfusion h, fun h => by omega⟩⟩
  · rw [if_neg h1]
    by_cases h2 : 200 ≤ n
    · rw [if_pos h2]
      exact ⟨⟨fun h => ActivityLevel.noConfusion h, fun h => by omega⟩,
        ⟨fun _ => ⟨h2, by omega⟩, fun _ => rfl⟩,
        ⟨fun h => ActivityLevel.noConfusion h, fun h => by omega⟩⟩
    · rw [if_neg h2]
      exact ⟨⟨fun h => ActivityLevel.noConfusion h, fun h => by omega⟩,
        ⟨fun h => ActivityLevel.noConfusion h, fun h => by omega⟩,
        ⟨fun _ => by omega, fun _ => rfl⟩⟩

/-- Witness for C10 at the boundary counts. -/
theorem classify_activity_partition_witness :
    classifyActivity 1000 = ActivityLevel.legend ∧
    classifyActivity 999 = ActivityLevel.veteran ∧
    classifyActivity 200 = ActivityLevel.veteran ∧
    classifyActivity 199 = ActivityLevel.rookie ∧
    classifyActivity 0 = ActivityLevel.rookie :=
  ⟨(classify_activity_partition 1000).1.mpr (by decide),
    (classify_activity_partition 999).2.1.mpr (by decide),
    (classify_activity_partition 200).2.1.mpr (by decide),
    (classify_activity_partition 199).2.2.mpr (by decide),
    (classify_activity_partition 0).2.2.mpr (by decide)⟩

/-- C7: the filtered set consists exactly of the held characters passing
(activity set empty OR the character's activity is selected) AND (series set
empty OR some series tag of the character is selected); clearing filters
empties both selection sets, after which the filtered set is the full fetched
set. -/
theorem filter_intersection_spec (s : GalleryState) (c : GalleryCharacter) :
    (c ∈ filteredCharacters s ↔
      c ∈ s.characters ∧
      (s.selectedActivity = [] ∨ c.activity ∈ s.selectedActivity) ∧
      (s.selectedSeries = [] ∨ ∃ n, n ∈ c.series ∧ n ∈ s.selectedSeries)) ∧
    (clearFilters s).selectedActivity = [] ∧
    (clearFilters s).selectedSeries = [] ∧
    filteredCharacters (clearFilters s) = s.characters := by
  refine ⟨?_, rfl, rfl, ?_⟩
  · unfold filteredCharacters
    rw [List.mem_filter]
    simp [List.isEmpty_iff, List.any_eq_true]
  · unfold filteredCharacters clearFilters
    simp

/-- Witness for C7: with activity selection {legend} and series selection
{"A"}, only the character satisfying both predicates passes, and clearing the
filters restores the full set. -/
theorem filter_intersection_spec_witness :
    (⟨1, "n", "t", 1200, 0, ActivityLevel.legend, ["A"]⟩ : GalleryCharacter) ∈
      filteredCharacters
        { characters :=
            [⟨1, "n", "t", 1200, 0, ActivityLevel.legend, ["A"]⟩,
              ⟨2, "m", "t", 1500, 0, ActivityLevel.legend, ["B"]⟩]
          selectedActivity := [ActivityLevel.legend]
          selectedSeries := ["A"]
          seriesFilters := []
          loading := false
          error := none } ∧
    filteredCharacters
        (clearFilters
          { characters :=
              [⟨1, "n", "t", 1200, 0, ActivityLevel.legend, ["A"]⟩,
                ⟨2, "m", "t", 1500, 0, ActivityLevel.legend, ["B"]⟩]
            selectedActivity := [ActivityLevel.legend]
            selectedSeries := ["A"]
            seriesFilters := []
            loading := false
            error := none })
      = [⟨1, "n", "t", 1200, 0, ActivityLevel.legend, ["A"]⟩,
          ⟨2, "m", "t", 1500, 0, ActivityLevel.legend, ["B"]⟩] :=
  have h := filter_intersection_spec
    { characters :=
        [⟨1, "n", "t", 1200, 0, ActivityLevel.legend, ["A"]⟩,
          ⟨2, "m", "t", 1500, 0, ActivityLevel.legend, ["B"]⟩]
      selectedActivity := [ActivityLevel.legend]
      selectedSeries := ["A"]
      seriesFilters := []
      loading := false
      error := none }
    ⟨1, "n", "t", 1200, 0, ActivityLevel.legend, ["A"]⟩
  ⟨h.1.mpr (by decide), h.2.2.2⟩

/-- Distinct values of a list in first-encountered order (the key order of a
JavaScript `Map` filled by repeated `set`). -/
def firstEncounters (tags : List String) : List String :=
  tags.foldl (fun acc n => if n ∈ acc then acc else acc ++ [n]) []

/-- The described frequency entries: the distinct names in first-encountered
order, each paired with its total occurrence count. -/
def countEntries (tags : List String) : List (String × Nat) :=
  (firstEncounters tags).map (fun n => (n, tags.count n))

theorem mem_firstEncounters_aux (x : String) (l acc : List String) :
    x ∈ l.foldl (fun a n => if n ∈ a then a else a ++ [n]) acc ↔ x ∈ acc ∨ x ∈ l := by
  induction l generalizing acc with
  | nil => simp
  | cons y ys ih =>
      rw [List.foldl_cons, ih]
      by_cases hy : y ∈ acc
      · rw [if_pos hy]
        simp only [List.mem_cons]
        constructor
        · rintro (h | h)
          · exact Or.inl h
          · exact Or.inr (Or.inr h)
        · rintro (h | h | h)
          · exact Or.inl h
          · exact Or.inl (h ▸ hy)
          · exact Or.inr h
      · rw [if_neg hy]
        simp only [List.mem_append, List.mem_cons, List.mem_singleton]
        tauto

theorem mem_firstEncounters (x : String) (l : List String) :
    x ∈ firstEncounters l ↔ x ∈ l := by
  simpa using mem_firstEncounters_aux x l []

theorem firstEncounters_nodup_aux (l acc : List String) (h : acc.Nodup) :
    (l.foldl (fun a n => if n ∈ a then a else a ++ [n]) acc).Nodup := by
  induction l generalizing acc with
  | nil => simpa using h
  | cons y ys ih =>
      rw [List.foldl_cons]
      by_cases hy : y ∈ acc
      · rw [if_pos hy]
        exact ih acc h
      · rw [if_neg hy]
        refine ih _ ?_
        rw [List.nodup_append]
        exact ⟨h, List.nodup_singleton y, by simpa using hy⟩

theorem firstEncounters_nodup (l : List String) : (firstEncounters l).Nodup :=
  firstEncounters_nodup_aux l [] List.Pairwise.nil

theorem firstEncounters_append_singleton (p : List String) (n : String) :
    firstEncounters (p ++ [n])
      = if n ∈ firstEncounters p then firstEncounters p else firstEncounters p ++ [n] := by
  unfold firstEncounters
  rw [List.foldl_append]
  rfl

theorem bumpFreq_map_mem (fs : List String) (cnt : String → Nat) (n : String)
    (hnd : fs.Nodup) (hmem : n ∈ fs) :
    bumpFreq (fs.map (fun m => (m, cnt m))) n
      = fs.map (fun m => (m, cnt m + if n = m then 1 else 0)) := by
  induction fs with
  | nil => simp at hmem
  | cons f rest ih =>
      rcases List.nodup_cons.mp hnd with ⟨hf, hrest⟩
      rw [List.map_cons, List.map_cons]
      unfold bumpFreq
      by_cases hfn : f = n
      · rw [if_pos hfn]
        have hne : ∀ m ∈ rest, (m, cnt m) = (m, cnt m + if n = m then 1 else 0) := by
          intro m hm
          have hnm : n ≠ m := by
            intro heq
            exact hf (by rw [hfn, heq]; exact hm)
          simp [hnm]
        rw [List.map_congr_left hne]
        rw [if_pos hfn.symm]
      · rw [if_neg hfn]
        have hmem2 : n ∈ rest := by
          rcases List.mem_cons.mp hmem with h | h
          · exact absurd h.symm hfn
          · exact h
        rw [ih hrest hmem2]
        have hnf : ¬ n = f := fun h => hfn h.symm
        simp [hnf]

theorem bumpFreq_map_not_mem (fs : List String) (cnt : String → Nat) (n : String)
    (hmem : n ∉ fs) :
    bumpFreq (fs.map (fun m => (m, cnt m))) n = fs.map (fun m => (m, cnt m)) ++ [(n, 1)] := by
  induction fs with
  | nil => rfl
  | cons f rest ih =>
      rw [List.map_cons]
      unfold bumpFreq
      have hfn : f ≠ n := by
        intro h
        exact hmem (h ▸ List.mem_cons_self f rest)
      rw [if_neg hfn]
      rw [ih (fun h => hmem (List.mem_cons_of_mem f h))]
      rfl

theorem bumpFreq_countEntries (p : List String) (n : String) :
    bumpFreq (countEntries p) n = countEntries (p ++ [n]) := by
  unfold countEntries
  by_cases hmem : n ∈ firstEncounters p
  · rw [bumpFreq_map_mem (firstEncounters p) _ n (firstEncounters_nodup p) hmem]
    rw [firstEncounters_append_singleton, if_pos hmem]
    refine List.map_congr_left ?_
    intro m hm
    rw [List.count_append]
    simp [List.count_singleton]
  · rw [bumpFreq_map_not_mem (firstEncounters p) _ n hmem]
    rw [firstEncounters_append_singleton, if_neg hmem]
    rw [List.map_append]
    have h1 : (firstEncounters p).map (fun m => (m, (p ++ [n]).count m))
        = (firstEncounters p).map (fun m => (m, p.count m)) := by
      refine List.map_congr_left ?_
      intro m hm
      have : n ≠ m := by
        intro heq
        exact hmem (heq ▸ hm)
      rw [List.count_append]
      simp [List.count_singleton, this]
    have h2 : ([n].map fun m => (m, (p ++ [n]).count m)) = [(n, 1)] := by
      have hnp : n ∉ p := fun h => hmem ((mem_firstEncounters n p).mpr h)
      rw [List.map_singleton]
      rw [List.count_append]
      simp [List.count_eq_zero.mpr hnp]
    rw [h1, h2]

theorem freqEntries_eq_countEntries (l : List String) :
    freqEntries l = countEntries l := by
  induction l using List.reverseRecOn with
  | nil => rfl
  | append_singleton p n ih =>
      have hstep : freqEntries (p ++ [n]) = bumpFreq (freqEntries p) n := by
        unfold freqEntries
        rw [List.foldl_append]
        rfl
      rw [hstep, ih]
      exact bumpFreq_countEntries p n

/-- The facet list as worded by the specification (with occurrence counting):
the distinct series names in first-encountered order, keeping those with at
least two occurrences across all characters' series tags, sorted descending by
occurrence count with the stable sort — so ties stay in first-encountered
order — and truncated to the first 8. -/
def facetListSpec (mapped : List GalleryCharacter) : List String :=
  (stableSort
      (fun a b =>
        (((seriesTags mapped).count b : Int) - ((seriesTags mapped).count a : Int)))
      ((firstEncounters (seriesTags mapped)).filter
        (fun n => decide (2 ≤ (seriesTags mapped).count n)))).take 8

theorem computeSeriesFilters_eq_spec (mapped : List GalleryCharacter) :
    computeSeriesFilters mapped = facetListSpec mapped := by
  unfold computeSeriesFilters facetListSpec
  rw [freqEntries_eq_countEntries]
  unfold countEntries
  rw [List.filter_map, stableSort_map, ← List.map_take, List.map_map]
  have hid : (Prod.fst ∘ fun n => (n, (seriesTags mapped).count n)) = fun n : String => n := rfl
  rw [hid, List.map_id']
  rfl

/-- C5 (amended): the facet list equals the specification-worded computation —
distinct series names in first-encountered order, restricted to those with at
least two occurrences across the fetched characters' series tags, stably
sorted by descending occurrence count (ties kept in first-encountered order),
first 8 — hence it has at most 8 entries, every entry has at least two
occurrences, counts are non-increasing along it; and toggling either filter
selection (or clearing them) leaves the facet list untouched, it is computed
only by the load resolution. -/
theorem facet_list_characterization (mapped : List GalleryCharacter)
    (s : GalleryState) (v : ActivityLevel) (n : String)
    (results : List MarvelCharacter) :
    (galleryLoadResolve s (FetchResult.ok results)).seriesFilters
      = computeSeriesFilters (results.map mapToGalleryCharacter) ∧
    computeSeriesFilters mapped = facetListSpec mapped ∧
    (computeSeriesFilters mapped).length ≤ 8 ∧
    (∀ x, x ∈ computeSeriesFilters mapped → 2 ≤ (seriesTags mapped).count x) ∧
    (computeSeriesFilters mapped).Pairwise
      (fun a b => (seriesTags mapped).count b ≤ (seriesTags mapped).count a) ∧
    (toggleActivity s v).seriesFilters = s.seriesFilters ∧
    (toggleSeries s n).seriesFilters = s.seriesFilters ∧
    (clearFilters s).seriesFilters = s.seriesFilters := by
  have hEq := computeSeriesFilters_eq_spec mapped
  refine ⟨rfl, hEq, ?_, ?_, ?_, rfl, rfl, rfl⟩
  · rw [hEq]
    unfold facetListSpec
    exact List.length_take_le 8 _
  · intro x hx
    rw [hEq] at hx
    unfold facetListSpec at hx
    have hx2 := List.mem_of_mem_take hx
    have hx3 := (stableSort_perm _ _).mem_iff.mp hx2
    have hx4 := (List.mem_filter.mp hx3).2
    exact of_decide_eq_true hx4
  · rw [hEq]
    unfold facetListSpec
    have htot : ∀ a b : String,
        ¬ (((seriesTags mapped).count b : Int) - ((seriesTags mapped).count a : Int)) < 0 →
        (((seriesTags mapped).count a : Int) - ((seriesTags mapped).count b : Int)) ≤ 0 := by
      intro a b h
      omega
    have htrans : ∀ a b d : String,
        (((seriesTags mapped).count b : Int) - ((seriesTags mapped).count a : Int)) ≤ 0 →
        (((seriesTags mapped).count d : Int) - ((seriesTags mapped).count b : Int)) ≤ 0 →
        (((seriesTags mapped).count d : Int) - ((seriesTags mapped).count a : Int)) ≤ 0 := by
      intro a b d h1 h2
      omega
    have hp := stableSort_pairwise
      (fun a b =>
        (((seriesTags mapped).count b : Int) - ((seriesTags mapped).count a : Int)))
      htot htrans
      ((firstEncounters (seriesTags mapped)).filter
        (fun n => decide (2 ≤ (seriesTags mapped).count n)))
    have hp2 := hp.sublist (List.take_sublist 8 _)
    exact hp2.imp (fun h => by omega)

/-- Sample raw character repeating the same series tag twice. -/
def rawDupSeries : MarvelCharacter :=
  { id := 9, name := "Echo", description := "", thumbnail := none
    comics := ⟨10, []⟩, series := ⟨2, [⟨"X"⟩, ⟨"X"⟩]⟩, stories := ⟨0, []⟩
    events := ⟨0, []⟩ }

/-- Counterexample to C5 as stated: a single fetched character whose series
tags repeat the name "X" puts "X" into the facet list (its occurrence count is
2), although "X" occurs in only 1 character — the facet filter keeps names
with at least 2 occurrences, not names occurring in at least 2 characters. -/
theorem facet_two_characters_cex :
    computeSeriesFilters ([rawDupSeries].map mapToGalleryCharacter) = ["X"] ∧
    ([rawDupSeries].map mapToGalleryCharacter).countP
      (fun c => c.series.contains "X") = 1 := by
  decide

/-- Sample gallery state used by the facet witness. -/
def sampleGalleryState : GalleryState :=
  { characters := [mapToGalleryCharacter sampleMarvel]
    selectedActivity := []
    selectedSeries := []
    seriesFilters := ["Avengers"]
    loading := false
    error := none }

/-- Witness for C5 (amended) at concrete inputs. -/
theorem facet_list_characterization_witness :
    computeSeriesFilters ([rawDupSeries].map mapToGalleryCharacter)
      = facetListSpec ([rawDupSeries].map mapToGalleryCharacter) ∧
    (toggleActivity sampleGalleryState ActivityLevel.legend).seriesFilters
      = sampleGalleryState.seriesFilters ∧
    (toggleSeries sampleGalleryState "X").seriesFilters
      = sampleGalleryState.seriesFilters :=
  have h := facet_list_characterization ([rawDupSeries].map mapToGalleryCharacter)
    sampleGalleryState ActivityLevel.legend "X" [rawDupSeries]
  ⟨h.2.1, h.2.2.2.2.2.1, h.2.2.2.2.2.2.1⟩
